import Mathlib

/-!
Verification of the AEIF dataset adapter (`kiss_icp/datasets/aeif.py`).

The adapter exposes a multi-file sensor recording as one flat indexable
sequence of point-cloud frames.  The embedding below translates each method
into a pure Lean function: Python strings become `String`/`List Char`
processing, the imperative loops become structural recursion carrying the
same accumulators, `raise ValueError` becomes `none`, and numpy arrays of
rational sensor values become `List ℚ`.  The external reader library is
modelled by its documented contract: a file record is a list of frames and
`num_frames` is the number of frames it holds.
-/

namespace AEIF

/-- Helper for `pyInt`: reads a non-empty all-digit character list as a
natural number, `none` otherwise. -/
def digits? (cs : List Char) : Option Nat :=
  if cs = [] ∨ ¬ cs.all Char.isDigit then none
  else some (cs.foldl (fun a c => a * 10 + (c.toNat - 48)) 0)

/-- Models Python `int(s)` on an optionally signed decimal literal, returning
`none` where Python raises `ValueError`.  (Python also strips surrounding
whitespace and allows underscore digit separators; neither occurs in the
strings this component feeds to `int`, so they are not modelled.) -/
def pyInt (s : String) : Option Int :=
  match s.toList with
  | '-' :: rest => (digits? rest).map (fun n => -(n : Int))
  | '+' :: rest => (digits? rest).map (fun n => (n : Int))
  | cs => (digits? cs).map (fun n => (n : Int))

/-- Accumulator loop behind `pySplit`; `acc` holds the current field in
reverse order. -/
def pySplitAux (sep : Char) (acc : List Char) : List Char → List String
  | [] => [String.mk acc.reverse]
  | c :: cs =>
    if c = sep then String.mk acc.reverse :: pySplitAux sep [] cs
    else pySplitAux sep (c :: acc) cs

/-- Models Python `s.split(sep)` for a single-character separator: fields
between separator occurrences, empty fields kept. -/
def pySplit (sep : Char) (s : String) : List String :=
  pySplitAux sep [] s.toList

/-- Embeds the specifier parsing of `AEIFDataset.__init__`: the specifier is
split on the hash character into a name and a `start-end` range, both bounds
parsed with `int`.  Every `ValueError` path (the hash split not yielding
exactly two parts, the dash split not yielding exactly two parts, a bound
failing to parse) lands in the `except` clause, which keeps the WHOLE
original specifier as `_sequence_name` and no range, after printing an
informational notice (the notice is emitted exactly when the range component
of the result is `none` and the specifier differs from the parsed name). -/
def parseSequence (sequence : String) : String × Option (Int × Int) :=
  match pySplit '#' sequence with
  | [name, fileRange] =>
    match pySplit '-' fileRange with
    | [a, b] =>
      match pyInt a, pyInt b with
      | some s, some e => (name, some (s, e))
      | _, _ => (sequence, none)
    | _ => (sequence, none)
  | _ => (sequence, none)

/-- Embeds the scan loop of `AEIFDataset._filter_file_range` over the
extracted file IDs, carrying `idx`, `start_file` and `end_file` exactly as
the Python loop does; returning a pair models the `break`. -/
def filterRangeAux (startId endId : Int) : Nat → Nat → Nat → List Int → Nat × Nat
  | _, startFile, endFile, [] => (startFile, endFile)
  | idx, startFile, endFile, fid :: rest =>
    let startFile' := if fid = startId ∧ startFile = 0 then idx else startFile
    if fid = endId then (startFile', idx + 1)
    else filterRangeAux startId endId (idx + 1) startFile' endFile rest

/-- Embeds `AEIFDataset._filter_file_range`, abstracting each sorted file to
its extracted numeric ID (the extraction `int(file_name.split('_')[0][2:])`
is deterministic per file, so the loop only depends on the ID list).  The
`None` case returns the defaults `(0, len(all_files))`. -/
def filterFileRange (ids : List Int) : Option Int → Option Int → Nat × Nat
  | some s, some e => filterRangeAux s e 0 0 ids.length ids
  | _, _ => (0, ids.length)

/-- Python list slice `l[s:e]` for non-negative bounds. -/
def pySlice {α : Type} (l : List α) (s e : Nat) : List α :=
  (l.drop s).take (e - s)

/-- Embeds the construction path that resolves the file slice:
`dirFiles` maps a directory name (joined under `data_dir`) to the sorted
extracted IDs of its recording files; construction parses the specifier,
lists the directory named by the resulting `_sequence_name`, resolves the
range and takes the slice `[start_file:end_file]`. -/
def resolveSlice (dirFiles : String → List Int) (sequence : String) : List Int :=
  let p := parseSequence sequence
  let files := dirFiles p.1
  let r := filterFileRange files (p.2.map Prod.fst) (p.2.map Prod.snd)
  pySlice files r.1 r.2

/-- Embeds the loop of `AEIFDataset._find_file_and_frame`: `total` is the
running cumulative sum, the target is compared against it after adding each
file's count, and falling off the list models `raise ValueError`. -/
def findAux (target : Int) : Nat → Int → List Nat → Option (Nat × Int)
  | _, _, [] => none
  | fileIdx, total, n :: rest =>
    let total2 := total + (n : Int)
    if target < total2 then some (fileIdx, target - (total2 - (n : Int)))
    else findAux target (fileIdx + 1) total2 rest

/-- Embeds `AEIFDataset._find_file_and_frame` on the frame-count table.
The target is an `Int` because Python callers can pass negative indices. -/
def findFileAndFrame (frames : List Nat) (target : Int) : Option (Nat × Int) :=
  findAux target 0 0 frames

/-- Cumulative frame count of the first `i` files, as an integer. -/
def csum (frames : List Nat) (i : Nat) : Int :=
  ((frames.take i).sum : Int)

/-- One frame of a file record, as exposed by the external reader contract:
it carries a scalar timestamp (per-point payloads are modelled separately
where a claim needs them). -/
structure Frame where
  timestamp : ℚ

/-- A buffered file record: the external reader exposes it as an iterable,
indexable collection of frames whose `num_frames` is the number of frames. -/
structure FileRec where
  frames : List Frame

/-- `record.num_frames` of the external reader contract. -/
def FileRec.numFrames (r : FileRec) : Nat := r.frames.length

/-- The dataset after construction: `_files_buffer`, the eagerly buffered
file records. -/
structure AEIFDataset where
  filesBuffer : List FileRec

/-- Embeds `AEIFDataset._get_num_frames`: the append loop building
`_frames_per_file`. -/
def getNumFrames (d : AEIFDataset) : List Nat :=
  d.filesBuffer.foldl (fun acc r => acc ++ [r.numFrames]) []

/-- Embeds `AEIFDataset.__len__`: `sum(self._frames_per_file)`. -/
def datasetLen (d : AEIFDataset) : Nat :=
  (getNumFrames d).sum

/-- The lookup performed by `AEIFDataset.__getitem__` before any file
access: `self._find_file_and_frame(idx)` over the frame-count table. -/
def getItemLookup (d : AEIFDataset) (idx : Int) : Option (Nat × Int) :=
  findFileAndFrame (getNumFrames d) idx

/-- numpy `arr.min()` reduction over a frame's per-point values (the code
never evaluates it on an empty array in the claims considered). -/
def npMin : List ℚ → ℚ
  | [] => 0
  | x :: xs => xs.foldl min x

/-- numpy `arr.max()` reduction. -/
def npMax : List ℚ → ℚ
  | [] => 0
  | x :: xs => xs.foldl max x

/-- Embeds `AEIFDataset._get_timestamps` on the per-point timestamp field:
`(t - t.min()) / (t.max() - t.min())` elementwise.  The divisor is zero
exactly when all timestamps coincide, in which case every numerator is also
zero and numpy produces NaN for each element (with a warning, not an
exception); that NaN outcome is modelled as `none`. -/
def getTimestamps (ts : List ℚ) : List (Option ℚ) :=
  let lo := npMin ts
  let hi := npMax ts
  ts.map (fun t => if hi - lo = 0 then none else some ((t - lo) / (hi - lo)))

/-- Embeds `AEIFDataset.get_frames_timestamps`: the nested loop appending
`frame.timestamp` file by file, then `reshape(-1, 1)` turning the flat array
into a column vector, modelled as one singleton row per frame. -/
def getFramesTimestamps (d : AEIFDataset) : List (List ℚ) :=
  (d.filesBuffer.foldl
    (fun ts f => f.frames.foldl (fun ts2 fr => ts2 ++ [fr.timestamp]) ts) []).map
    (fun t => [t])

/-- The local frame index at which `AEIFDataset.project_points` accesses the
camera payload: it resolves the global index with `_find_file_and_frame` and
then reads `self._files_buffer[file_idx][frame_idx + 1]`. -/
def projCameraIdx (d : AEIFDataset) (idx : Int) : Option (Nat × Int) :=
  (findFileAndFrame (getNumFrames d) idx).map (fun p => (p.1, p.2 + 1))

/-- A (file index, local frame index) access is valid when the file exists
and the local index lies in `[0, num_frames)` of that file. -/
def validLocal (d : AEIFDataset) (p : Nat × Int) : Prop :=
  ∃ m, (getNumFrames d).get? p.1 = some m ∧ 0 ≤ p.2 ∧ p.2 < (m : Int)

/-- Index of the first occurrence of `v` in the list, if any (used to state
what `_filter_file_range` resolves). -/
def firstIdxEq (v : Int) : List Int → Option Nat
  | [] => none
  | x :: xs => if x = v then some 0 else (firstIdxEq v xs).map (· + 1)

/-- First absolute position `≥ max(idx, 1)` at which `v` occurs, scanning
the list with `idx` as the position of its head: a match at absolute
position 0 is skipped, mirroring the `start_file == 0` sentinel. -/
def firstPosMatch (v : Int) : Nat → List Int → Option Nat
  | _, [] => none
  | idx, x :: xs => if x = v ∧ idx ≠ 0 then some idx else firstPosMatch v (idx + 1) xs

/-- The portion of the file list the range loop actually scans: everything
up to and including the first file whose ID equals `endId` (the whole list
when no file matches). -/
def scannedPart (endId : Int) (ids : List Int) : List Int :=
  match firstIdxEq endId ids with
  | some k => ids.take (k + 1)
  | none => ids

/-- The `end_file` value `_filter_file_range` actually computes: one past
the first `endId` match, else `len(all_files)`. -/
def endResolved (endId : Int) (ids : List Int) : Nat :=
  match firstIdxEq endId ids with
  | some k => k + 1
  | none => ids.length

/-- The `start_file` value `_filter_file_range` actually computes: the first
POSITIVE index within the scanned portion whose ID equals `startId`, else 0
(a match at index 0 cannot reserve the slot, because the loop uses
`start_file == 0` as its "not yet set" sentinel). -/
def startResolved (startId endId : Int) (ids : List Int) : Nat :=
  match firstPosMatch startId 0 (scannedPart endId ids) with
  | some a => a
  | none => 0

/-- A concrete directory layout: the sequence `seq` holds two files with IDs
10 and 11; no other directory exists. -/
def envEx : String → List Int :=
  fun name => if name = "seq" then [10, 11] else []

/-- A concrete dataset with two buffered files holding 2 and 3 frames. -/
def dsA : AEIFDataset :=
  ⟨[⟨[⟨0⟩, ⟨1⟩]⟩, ⟨[⟨2⟩, ⟨3⟩, ⟨4⟩]⟩]⟩

/-- A concrete dataset with two buffered files holding 2 and 1 frames. -/
def dsB : AEIFDataset :=
  ⟨[⟨[⟨0⟩, ⟨1⟩]⟩, ⟨[⟨2⟩]⟩]⟩

lemma csum_zero (frames : List Nat) : csum frames 0 = 0 := by
  simp [csum]

lemma csum_cons_succ (n : Nat) (rest : List Nat) (i : Nat) :
    csum (n :: rest) (i + 1) = (n : Int) + csum rest i := by
  simp [csum, List.take_succ_cons]

lemma findAux_spec (target : Int) :
    ∀ (frames : List Nat) (fileIdx : Nat) (total : Int),
      total ≤ target → target < total + (frames.sum : Int) →
      ∃ i, findAux target fileIdx total frames
            = some (fileIdx + i, target - (total + csum frames i)) ∧
        target < total + csum frames (i + 1) ∧
        ∀ j < i, total + csum frames (j + 1) ≤ target := by
  intro frames
  induction frames with
  | nil =>
    intro fileIdx total h1 h2
    simp at h2
    omega
  | cons n rest ih =>
    intro fileIdx total h1 h2
    by_cases hlt : target < total + (n : Int)
    · refine ⟨0, ?_, ?_, ?_⟩
      · simp [findAux, hlt, csum_zero]
      · rw [csum_cons_succ, csum_zero]
        omega
      · intro j hj
        omega
    · have h1' : total + (n : Int) ≤ target := by omega
      have hsum : ((n :: rest).sum : Int) = (n : Int) + (rest.sum : Int) := by
        push_cast [List.sum_cons]
        ring
      have h2' : target < (total + (n : Int)) + (rest.sum : Int) := by omega
      obtain ⟨i', hfind, hlt', hmin⟩ := ih (fileIdx + 1) (total + (n : Int)) h1' h2'
      refine ⟨i' + 1, ?_, ?_, ?_⟩
      · have hstep : findAux target fileIdx total (n :: rest)
            = findAux target (fileIdx + 1) (total + (n : Int)) rest := by
          simp [findAux, hlt]
        rw [hstep, hfind]
        have e1 : fileIdx + 1 + i' = fileIdx + (i' + 1) := by omega
        have e2 : target - (total + (n : Int) + csum rest i')
            = target - (total + csum (n :: rest) (i' + 1)) := by
          rw [csum_cons_succ]
          ring
        rw [e1, e2]
      · rw [csum_cons_succ]
        have := hlt'
        omega
      · intro j hj
        match j with
        | 0 =>
          rw [csum_cons_succ, csum_zero]
          omega
        | j' + 1 =>
          have := hmin j' (by omega)
          rw [csum_cons_succ]
          omega

lemma findFileAndFrame_spec (frames : List Nat) (target : Int)
    (h0 : 0 ≤ target) (hlt : target < (frames.sum : Int)) :
    ∃ i, findFileAndFrame frames target = some (i, target - csum frames i) ∧
      target < csum frames (i + 1) ∧ ∀ j < i, csum frames (j + 1) ≤ target := by
  obtain ⟨i, h1, h2, h3⟩ := findAux_spec target frames 0 0 h0 (by omega)
  refine ⟨i, ?_, ?_, ?_⟩
  · simpa [findFileAndFrame] using h1
  · simpa using h2
  · intro j hj
    simpa using h3 j hj

lemma findAux_none_iff (target : Int) :
    ∀ (frames : List Nat) (fileIdx : Nat) (total : Int),
      findAux target fileIdx total frames = none ↔
        (total + (frames.sum : Int) ≤ target ∨ frames = []) := by
  intro frames
  induction frames with
  | nil =>
    intro fileIdx total
    simp [findAux]
  | cons n rest ih =>
    intro fileIdx total
    have hsum : (((n :: rest).sum : Nat) : Int) = (n : Int) + (rest.sum : Int) := by
      push_cast [List.sum_cons]
      ring
    have hr : (0 : Int) ≤ (rest.sum : Int) := by positivity
    by_cases hlt : target < total + (n : Int)
    · simp only [findAux, if_pos hlt]
      rw [hsum]
      constructor
      · intro h
        exact absurd h (by simp)
      · intro h
        rcases h with h | h
        · omega
        · exact absurd h (by simp)
    · simp only [findAux, if_neg hlt, ih (fileIdx + 1) (total + (n : Int))]
      rw [hsum]
      constructor
      · intro h
        rcases h with h | h
        · left
          omega
        · subst h
          left
          simp only [List.sum_nil, Nat.cast_zero]
          omega
      · intro h
        rcases h with h | h
        · left
          omega
        · exact absurd h (by simp)

lemma findFileAndFrame_neg (n : Nat) (rest : List Nat) (target : Int)
    (hneg : target < 0) :
    findFileAndFrame (n :: rest) target = some (0, target) := by
  have hlt : target < 0 + (n : Int) := by omega
  simp only [findFileAndFrame, findAux, if_pos hlt]
  congr 2
  omega

/-- Claim C1 counterexample: on the dataset with frame counts `[2, 3]` the
global-index lookup behind `__getitem__` does NOT fail for index `-1`: it
returns file 0 with local frame index `-1`, so `dataset[-1]` never reaches
the out-of-range branch. -/
theorem c1_negative_index_counterexample :
    getItemLookup dsA (-1) = some (0, -1) ∧ getItemLookup dsA (-1) ≠ none := by
  refine ⟨rfl, ?_⟩
  intro h
  rw [show getItemLookup dsA (-1) = some (0, -1) from rfl] at h
  exact Option.noConfusion h

/-- Claim C1 (amended): the global-index lookup fails exactly when the
target is at least the total frame count or the frame table is empty; in
particular `dataset[len(dataset)]` fails with the out-of-range condition,
but a negative target on a non-empty table does not fail: it returns file 0
with the negative target itself as the local frame index. -/
theorem c1_out_of_range_amended (frames : List Nat) (target : Int) :
    (findFileAndFrame frames target = none ↔
      ((frames.sum : Int) ≤ target ∨ frames = [])) ∧
    (frames ≠ [] → target < 0 → findFileAndFrame frames target = some (0, target)) := by
  constructor
  · simpa [findFileAndFrame] using findAux_none_iff target frames 0 0
  · intro hne hneg
    rcases frames with _ | ⟨n, rest⟩
    · exact absurd rfl hne
    · exact findFileAndFrame_neg n rest target hneg

theorem c1_out_of_range_amended_witness :
    (findFileAndFrame [2, 3] (-1) = none ↔
      ((([2, 3] : List Nat).sum : Int) ≤ -1 ∨ ([2, 3] : List Nat) = [])) ∧
    (([2, 3] : List Nat) ≠ [] → (-1 : Int) < 0 →
      findFileAndFrame [2, 3] (-1) = some (0, -1)) :=
  c1_out_of_range_amended [2, 3] (-1)

/-- Claim C4: for every frame-count table and every target in
`[0, total_frames)`, the lookup returns the first file whose cumulative
frame count exceeds the target, with local index equal to the target minus
the cumulative count of all preceding files. -/
theorem c4_lookup_correct (frames : List Nat) (target : Int)
    (h0 : 0 ≤ target) (hlt : target < (frames.sum : Int)) :
    ∃ i, findFileAndFrame frames target = some (i, target - csum frames i) ∧
      target < csum frames (i + 1) ∧ ∀ j < i, csum frames (j + 1) ≤ target :=
  findFileAndFrame_spec frames target h0 hlt

theorem c4_lookup_correct_witness :
    ∃ i, findFileAndFrame [2, 3] 3 = some (i, 3 - csum [2, 3] i) ∧
      (3 : Int) < csum [2, 3] (i + 1) ∧ ∀ j < i, csum [2, 3] (j + 1) ≤ 3 :=
  c4_lookup_correct [2, 3] 3 (by decide) (by decide)

/-- Claim C6: strictly increasing valid global indices map to
lexicographically non-decreasing (file index, local frame index) pairs. -/
theorem c6_lookup_monotone (frames : List Nat) (i j : Int)
    (h0 : 0 ≤ i) (hij : i < j) (hj : j < (frames.sum : Int)) :
    ∃ p q, findFileAndFrame frames i = some p ∧ findFileAndFrame frames j = some q ∧
      (p.1 < q.1 ∨ (p.1 = q.1 ∧ p.2 ≤ q.2)) := by
  obtain ⟨fi, hfi, hfi2, hfi3⟩ := findFileAndFrame_spec frames i h0 (by omega)
  obtain ⟨fj, hfj, hfj2, hfj3⟩ := findFileAndFrame_spec frames j (by omega) hj
  refine ⟨_, _, hfi, hfj, ?_⟩
  rcases lt_trichotomy fi fj with h | h | h
  · left
    exact h
  · right
    subst h
    refine ⟨rfl, ?_⟩
    simp only
    omega
  · exfalso
    have hle := hfi3 fj h
    omega

theorem c6_lookup_monotone_witness :
    ∃ p q, findFileAndFrame [2, 3] 1 = some p ∧ findFileAndFrame [2, 3] 3 = some q ∧
      (p.1 < q.1 ∨ (p.1 = q.1 ∧ p.2 ≤ q.2)) :=
  c6_lookup_monotone [2, 3] 1 3 (by decide) (by decide) (by decide)

lemma scannedPart_cons_of_ne (endId x : Int) (xs : List Int) (hx : x ≠ endId) :
    scannedPart endId (x :: xs) = x :: scannedPart endId xs := by
  simp only [scannedPart, firstIdxEq, if_neg hx]
  cases h : firstIdxEq endId xs with
  | none => simp [h]
  | some k => simp [h, List.take_succ_cons]

lemma scannedPart_cons_of_eq (endId : Int) (xs : List Int) :
    scannedPart endId (endId :: xs) = [endId] := by
  simp [scannedPart, firstIdxEq]

lemma filterRangeAux_snd (startId endId : Int) :
    ∀ (ids : List Int) (idx startFile endFile : Nat),
      (filterRangeAux startId endId idx startFile endFile ids).2 =
        (match firstIdxEq endId ids with
         | some k => idx + k + 1
         | none => endFile) := by
  intro ids
  induction ids with
  | nil =>
    intro idx startFile endFile
    simp [filterRangeAux, firstIdxEq]
  | cons x xs ih =>
    intro idx startFile endFile
    by_cases hxe : x = endId
    · simp [filterRangeAux, firstIdxEq, hxe]
    · simp only [filterRangeAux, if_neg hxe, firstIdxEq,
        ih (idx + 1) (if x = startId ∧ startFile = 0 then idx else startFile) endFile]
      cases h : firstIdxEq endId xs with
      | none => simp [h]
      | some k =>
        simp [h]
        omega

lemma filterRangeAux_fst (startId endId : Int) :
    ∀ (ids : List Int) (idx startFile endFile : Nat),
      (filterRangeAux startId endId idx startFile endFile ids).1 =
        (if startFile = 0 then
          match firstPosMatch startId idx (scannedPart endId ids) with
          | some a => a
          | none => 0
        else startFile) := by
  intro ids
  induction ids with
  | nil =>
    intro idx startFile endFile
    simp only [filterRangeAux, scannedPart, firstIdxEq, firstPosMatch]
    by_cases h : startFile = 0
    · simp [h]
    · simp [h]
  | cons x xs ih =>
    intro idx startFile endFile
    by_cases hxe : x = endId
    · subst hxe
      rw [scannedPart_cons_of_eq]
      simp only [filterRangeAux, if_pos rfl, firstPosMatch]
      by_cases hsf : startFile = 0
      · by_cases hxs : x = startId
        · by_cases hidx : idx = 0
          · simp [hsf, hxs, hidx]
          · simp [hsf, hxs, hidx]
        · simp [hsf, hxs]
      · simp [hsf]
    · rw [scannedPart_cons_of_ne endId x xs hxe]
      simp only [filterRangeAux, if_neg hxe,
        ih (idx + 1) (if x = startId ∧ startFile = 0 then idx else startFile) endFile,
        firstPosMatch]
      by_cases hsf : startFile = 0
      · by_cases hxs : x = startId
        · by_cases hidx : idx = 0
          · simp [hsf, hxs, hidx]
          · simp [hsf, hxs, hidx]
        · simp [hsf, hxs]
      · simp [hsf]

/-- Claim C3 counterexample: with sorted file IDs `[10, 10, 11]` and range
`10-11`, the first file whose extracted ID equals the start ID is at index
0, yet the resolver returns `start_file = 1`: the loop's `start_file == 0`
sentinel lets the second file with the same ID overwrite the slot, so the
first match is NOT the one taken. -/
theorem c3_first_match_counterexample :
    filterFileRange [10, 10, 11] (some 10) (some 11) = (1, 3) ∧
    firstIdxEq 10 [10, 10, 11] = some 0 := by
  decide

/-- Claim C3 (amended): range resolution sets `end_file` to one past the
first file whose ID equals the end ID and stops scanning there (falling back
to `len(all_files)` when no file matches); it sets `start_file` to the first
POSITIVE index within the scanned portion whose ID equals the start ID, and
to 0 when there is none — in particular a match at index 0 cannot reserve
the slot, because the loop uses `start_file == 0` as its not-yet-set
sentinel.  For files with IDs `[10, 11, 12, 13, 14]` and range `11-13` the
resolved slice is exactly the files with IDs 11, 12, 13, in order. -/
theorem c3_filter_file_range_resolved (ids : List Int) (s e : Int) :
    filterFileRange ids (some s) (some e) = (startResolved s e ids, endResolved e ids) ∧
    pySlice [10, 11, 12, 13, 14]
        (filterFileRange [10, 11, 12, 13, 14] (some 11) (some 13)).1
        (filterFileRange [10, 11, 12, 13, 14] (some 11) (some 13)).2
      = [11, 12, 13] := by
  refine ⟨?_, by decide⟩
  rw [show filterFileRange ids (some s) (some e)
      = filterRangeAux s e 0 0 ids.length ids from rfl, Prod.ext_iff]
  constructor
  · rw [filterRangeAux_fst]
    simp [startResolved]
  · rw [filterRangeAux_snd]
    simp only [endResolved]
    cases h : firstIdxEq e ids with
    | none => simp
    | some k => simp

lemma parseSequence_fallback_or (sequence : String) :
    parseSequence sequence = (sequence, none) ∨
      ∃ r, (parseSequence sequence).2 = some r := by
  simp only [parseSequence]
  split
  · split
    · split
      · right
        exact ⟨_, rfl⟩
      · left
        rfl
    · left
      rfl
  · left
    rfl

/-- Claim C2 counterexample: in a layout where directory `seq` holds files
with IDs 10 and 11 and no other directory has files, the malformed
specifier `"seq#11"` resolves the empty slice — its fallback keeps the
WHOLE specifier as the sequence name and therefore lists the (empty)
directory `seq#11` — while the plain specifier `"seq"` resolves both
files.  The fallback does not resolve the same file slice as `"<name>"`. -/
theorem c2_fallback_counterexample :
    resolveSlice envEx "seq#11" = [] ∧ resolveSlice envEx "seq" = [10, 11] ∧
    resolveSlice envEx "seq#11" ≠ resolveSlice envEx "seq" := by
  refine ⟨rfl, rfl, ?_⟩
  intro hcontra
  rw [show resolveSlice envEx "seq#11" = [] from rfl,
    show resolveSlice envEx "seq" = [10, 11] from rfl] at hcontra
  cases hcontra

/-- Claim C2 (amended): on a specifier whose range portion is malformed or
absent, construction does not raise: it falls back to no-range processing
(after the informational notice), but the sequence name it keeps is the
ENTIRE original specifier, so it resolves the full file list of the
directory named by the whole specifier — not, in general, the slice the
plain specifier `"<name>"` would resolve. -/
theorem c2_malformed_range_fallback (dirFiles : String → List Int)
    (sequence : String) (h : (parseSequence sequence).2 = none) :
    (parseSequence sequence).1 = sequence ∧
    resolveSlice dirFiles sequence = dirFiles sequence := by
  have hp : parseSequence sequence = (sequence, none) := by
    rcases parseSequence_fallback_or sequence with h1 | ⟨r, h1⟩
    · exact h1
    · rw [h1] at h
      cases h
  constructor
  · rw [hp]
  · simp [resolveSlice, hp, filterFileRange, pySlice]

theorem c2_malformed_range_fallback_witness :
    (parseSequence "seq#11").1 = "seq#11" ∧
    resolveSlice envEx "seq#11" = envEx "seq#11" :=
  c2_malformed_range_fallback envEx "seq#11" rfl

lemma foldl_append_map {α β : Type} (f : α → β) :
    ∀ (l : List α) (acc : List β),
      l.foldl (fun a r => a ++ [f r]) acc = acc ++ l.map f := by
  intro l
  induction l with
  | nil =>
    intro acc
    simp
  | cons x xs ih =>
    intro acc
    simp [ih]

lemma getNumFrames_eq (d : AEIFDataset) :
    getNumFrames d = d.filesBuffer.map FileRec.numFrames := by
  simp [getNumFrames, foldl_append_map]

/-- Claim C5: `len(dataset)` equals the sum of `num_frames` over all
buffered file records. -/
theorem c5_len_eq_sum (d : AEIFDataset) :
    datasetLen d = (d.filesBuffer.map FileRec.numFrames).sum := by
  rw [datasetLen, getNumFrames_eq]

lemma foldl_append_flatten {α β : Type} (g : α → List β) :
    ∀ (l : List α) (acc : List β),
      l.foldl (fun a r => a ++ g r) acc = acc ++ (l.map g).flatten := by
  intro l
  induction l with
  | nil =>
    intro acc
    simp
  | cons x xs ih =>
    intro acc
    simp only [List.foldl_cons, ih, List.map_cons, List.flatten_cons]
    rw [List.append_assoc]

lemma foldl_frames_timestamps (files : List FileRec) (acc : List ℚ) :
    files.foldl
      (fun ts f => f.frames.foldl (fun ts2 fr => ts2 ++ [fr.timestamp]) ts) acc
      = acc ++ (files.map (fun f => f.frames.map Frame.timestamp)).flatten := by
  have hfun : (fun (ts : List ℚ) (f : FileRec) =>
      f.frames.foldl (fun ts2 fr => ts2 ++ [fr.timestamp]) ts)
      = (fun ts f => ts ++ f.frames.map Frame.timestamp) := by
    funext ts f
    exact foldl_append_map Frame.timestamp f.frames ts
  rw [hfun, foldl_append_flatten]

/-- Claim C9: `get_frames_timestamps` returns a column vector — one
singleton row per frame, the rows being exactly the per-frame timestamps in
file-then-frame order — whose length equals `len(dataset)`. -/
theorem c9_frames_timestamps_shape (d : AEIFDataset) :
    getFramesTimestamps d
      = ((d.filesBuffer.map (fun f => f.frames.map Frame.timestamp)).flatten).map
          (fun t => [t]) ∧
    (getFramesTimestamps d).length = datasetLen d ∧
    ∀ row ∈ getFramesTimestamps d, row.length = 1 := by
  have hflat : getFramesTimestamps d
      = ((d.filesBuffer.map (fun f => f.frames.map Frame.timestamp)).flatten).map
          (fun t => [t]) := by
    simp [getFramesTimestamps, foldl_frames_timestamps]
  refine ⟨hflat, ?_, ?_⟩
  · have hFG : (List.length ∘ fun f : FileRec => List.map Frame.timestamp f.frames)
        = FileRec.numFrames := by
      funext f
      simp [FileRec.numFrames]
    rw [hflat, datasetLen, getNumFrames_eq, List.length_map, List.length_flatten,
      List.map_map, hFG]
  · intro row hrow
    rw [hflat] at hrow
    obtain ⟨t, _, rfl⟩ := List.mem_map.mp hrow
    rfl

lemma foldl_min_le_init : ∀ (l : List ℚ) (a : ℚ), l.foldl min a ≤ a := by
  intro l
  induction l with
  | nil =>
    intro a
    simp
  | cons x xs ih =>
    intro a
    simp only [List.foldl_cons]
    exact le_trans (ih (min a x)) (min_le_left a x)

lemma foldl_min_le_mem : ∀ (l : List ℚ) (a : ℚ), ∀ x ∈ l, l.foldl min a ≤ x := by
  intro l
  induction l with
  | nil =>
    intro a x hx
    simp at hx
  | cons y ys ih =>
    intro a x hx
    simp only [List.foldl_cons]
    rcases List.mem_cons.mp hx with rfl | hx'
    · exact le_trans (foldl_min_le_init ys (min a x)) (min_le_right a x)
    · exact ih (min a y) x hx'

lemma foldl_min_mem : ∀ (l : List ℚ) (a : ℚ), l.foldl min a = a ∨ l.foldl min a ∈ l := by
  intro l
  induction l with
  | nil =>
    intro a
    left
    rfl
  | cons x xs ih =>
    intro a
    rcases ih (min a x) with h | h
    · rcases min_cases a x with ⟨h2, _⟩ | ⟨h2, _⟩
      · left
        simp only [List.foldl_cons]
        rw [h, h2]
      · right
        simp only [List.foldl_cons]
        rw [h, h2]
        exact List.mem_cons_self x xs
    · right
      simp only [List.foldl_cons]
      exact List.mem_cons_of_mem x h

lemma foldl_max_init_le : ∀ (l : List ℚ) (a : ℚ), a ≤ l.foldl max a := by
  intro l
  induction l with
  | nil =>
    intro a
    simp
  | cons x xs ih =>
    intro a
    simp only [List.foldl_cons]
    exact le_trans (le_max_left a x) (ih (max a x))

lemma foldl_max_mem_le : ∀ (l : List ℚ) (a : ℚ), ∀ x ∈ l, x ≤ l.foldl max a := by
  intro l
  induction l with
  | nil =>
    intro a x hx
    simp at hx
  | cons y ys ih =>
    intro a x hx
    simp only [List.foldl_cons]
    rcases List.mem_cons.mp hx with rfl | hx'
    · exact le_trans (le_max_right a x) (foldl_max_init_le ys (max a x))
    · exact ih (max a y) x hx'

lemma foldl_max_mem : ∀ (l : List ℚ) (a : ℚ), l.foldl max a = a ∨ l.foldl max a ∈ l := by
  intro l
  induction l with
  | nil =>
    intro a
    left
    rfl
  | cons x xs ih =>
    intro a
    rcases ih (max a x) with h | h
    · rcases max_cases a x with ⟨h2, _⟩ | ⟨h2, _⟩
      · left
        simp only [List.foldl_cons]
        rw [h, h2]
      · right
        simp only [List.foldl_cons]
        rw [h, h2]
        exact List.mem_cons_self x xs
    · right
      simp only [List.foldl_cons]
      exact List.mem_cons_of_mem x h

lemma npMin_mem (l : List ℚ) (h : l ≠ []) : npMin l ∈ l := by
  rcases l with _ | ⟨x, xs⟩
  · exact absurd rfl h
  · simp only [npMin]
    rcases foldl_min_mem xs x with h1 | h1
    · rw [h1]
      exact List.mem_cons_self x xs
    · exact List.mem_cons_of_mem x h1

lemma npMin_le (l : List ℚ) : ∀ x ∈ l, npMin l ≤ x := by
  rcases l with _ | ⟨y, ys⟩
  · intro x hx
    simp at hx
  · intro x hx
    simp only [npMin]
    rcases List.mem_cons.mp hx with rfl | hx'
    · exact foldl_min_le_init ys x
    · exact foldl_min_le_mem ys y x hx'

lemma npMax_mem (l : List ℚ) (h : l ≠ []) : npMax l ∈ l := by
  rcases l with _ | ⟨x, xs⟩
  · exact absurd rfl h
  · simp only [npMax]
    rcases foldl_max_mem xs x with h1 | h1
    · rw [h1]
      exact List.mem_cons_self x xs
    · exact List.mem_cons_of_mem x h1

lemma le_npMax (l : List ℚ) : ∀ x ∈ l, x ≤ npMax l := by
  rcases l with _ | ⟨y, ys⟩
  · intro x hx
    simp at hx
  · intro x hx
    simp only [npMax]
    rcases List.mem_cons.mp hx with rfl | hx'
    · exact foldl_max_init_le ys x
    · exact foldl_max_mem_le ys y x hx'

/-- Claim C7: for a frame with at least two distinct per-point timestamps,
every normalized value is defined, the values 0 and 1 are attained (so the
minimum is 0 and the maximum is 1), and every value lies in `[0, 1]`. -/
theorem c7_normalize_min_max (ts : List ℚ)
    (h : ∃ a ∈ ts, ∃ b ∈ ts, a ≠ b) :
    ∃ vals : List ℚ,
      getTimestamps ts = vals.map some ∧
      (0 : ℚ) ∈ vals ∧ (1 : ℚ) ∈ vals ∧ ∀ v ∈ vals, 0 ≤ v ∧ v ≤ 1 := by
  obtain ⟨a, ha, b, hb, hab⟩ := h
  have hne : ts ≠ [] := by
    rintro rfl
    simp at ha
  have hlolt : npMin ts < npMax ts := by
    rcases lt_or_ge a b with h1 | h1
    · exact lt_of_le_of_lt (npMin_le ts a ha) (lt_of_lt_of_le h1 (le_npMax ts b hb))
    · have h1' : b < a := lt_of_le_of_ne h1 (Ne.symm hab)
      exact lt_of_le_of_lt (npMin_le ts b hb) (lt_of_lt_of_le h1' (le_npMax ts a ha))
  have hpos : 0 < npMax ts - npMin ts := by linarith
  have hne0 : npMax ts - npMin ts ≠ 0 := ne_of_gt hpos
  refine ⟨ts.map (fun t => (t - npMin ts) / (npMax ts - npMin ts)), ?_, ?_, ?_, ?_⟩
  · have hfun : (fun t : ℚ => if npMax ts - npMin ts = 0 then (none : Option ℚ)
        else some ((t - npMin ts) / (npMax ts - npMin ts)))
        = (fun t : ℚ => some ((t - npMin ts) / (npMax ts - npMin ts))) :=
      funext fun t => if_neg hne0
    calc getTimestamps ts
        = ts.map (fun t => if npMax ts - npMin ts = 0 then (none : Option ℚ)
            else some ((t - npMin ts) / (npMax ts - npMin ts))) := rfl
      _ = ts.map (fun t => some ((t - npMin ts) / (npMax ts - npMin ts))) := by
            rw [hfun]
      _ = (ts.map (fun t => (t - npMin ts) / (npMax ts - npMin ts))).map some := by
            rw [List.map_map]
            rfl
  · refine List.mem_map.mpr ⟨npMin ts, npMin_mem ts hne, ?_⟩
    rw [sub_self, zero_div]
  · refine List.mem_map.mpr ⟨npMax ts, npMax_mem ts hne, ?_⟩
    exact div_self hne0
  · intro v hv
    obtain ⟨t, ht, rfl⟩ := List.mem_map.mp hv
    constructor
    · apply div_nonneg _ (le_of_lt hpos)
      have := npMin_le ts t ht
      linarith
    · rw [div_le_one hpos]
      have := le_npMax ts t ht
      linarith

theorem c7_normalize_min_max_witness :
    ∃ vals : List ℚ,
      getTimestamps [0, 2] = vals.map some ∧
      (0 : ℚ) ∈ vals ∧ (1 : ℚ) ∈ vals ∧ ∀ v ∈ vals, 0 ≤ v ∧ v ≤ 1 :=
  c7_normalize_min_max [0, 2] ⟨0, by simp, 2, by simp, by norm_num⟩

lemma map_const_none (l : List ℚ) :
    l.map (fun _ => (none : Option ℚ)) = List.replicate l.length none := by
  induction l with
  | nil => rfl
  | cons x xs ih => simp [List.replicate_succ, ih]

/-- Claim C8: when all per-point timestamps in a frame are identical the
normalization does not fail: every element divides zero by zero and the
result is a full-length degenerate array, each entry being the NaN
marker. -/
theorem c8_constant_timestamps_degenerate (ts : List ℚ)
    (hne : ts ≠ []) (hconst : ∀ x ∈ ts, ∀ y ∈ ts, x = y) :
    getTimestamps ts = List.replicate ts.length none ∧
    (getTimestamps ts).length = ts.length := by
  have hmm : npMax ts = npMin ts :=
    hconst _ (npMax_mem ts hne) _ (npMin_mem ts hne)
  have hz : npMax ts - npMin ts = 0 := by
    rw [hmm, sub_self]
  have hfun : (fun t : ℚ => if npMax ts - npMin ts = 0 then (none : Option ℚ)
      else some ((t - npMin ts) / (npMax ts - npMin ts)))
      = (fun _ : ℚ => (none : Option ℚ)) :=
    funext fun t => if_pos hz
  have h1 : getTimestamps ts = ts.map (fun _ => (none : Option ℚ)) := by
    calc getTimestamps ts
        = ts.map (fun t => if npMax ts - npMin ts = 0 then (none : Option ℚ)
            else some ((t - npMin ts) / (npMax ts - npMin ts))) := rfl
      _ = ts.map (fun _ => (none : Option ℚ)) := by rw [hfun]
  constructor
  · rw [h1, map_const_none]
  · rw [h1]
    simp

theorem c8_constant_timestamps_witness :
    getTimestamps [5, 5] = List.replicate ([5, 5] : List ℚ).length none ∧
    (getTimestamps [5, 5]).length = ([5, 5] : List ℚ).length :=
  c8_constant_timestamps_degenerate [5, 5] (by decide) (by decide)

/-- Claim C10: when a valid global index resolves to the LAST local frame
of a buffered file, `project_points` accesses the camera payload at local
index `frame_idx + 1`, which equals that file's `num_frames` and therefore
lies outside the file's valid frame range `[0, num_frames)`. -/
theorem c10_project_points_oob (d : AEIFDataset) (idx : Int) (f n : Nat)
    (hfind : findFileAndFrame (getNumFrames d) idx = some (f, (n : Int) - 1))
    (hn : (getNumFrames d).get? f = some n) :
    projCameraIdx d idx = some (f, (n : Int)) ∧
    ¬ validLocal d (f, (n : Int)) := by
  constructor
  · have he : ((n : Int) - 1) + 1 = (n : Int) := by omega
    rw [show projCameraIdx d idx = (findFileAndFrame (getNumFrames d) idx).map
        (fun p => (p.1, p.2 + 1)) from rfl, hfind]
    simp [he]
  · rintro ⟨m, hm, h0, hlt⟩
    have hnm : n = m := by
      rw [hn] at hm
      exact Option.some.inj hm
    subst hnm
    exact absurd hlt (lt_irrefl _)

theorem c10_project_points_oob_witness :
    projCameraIdx dsB 1 = some (0, (2 : Int)) ∧
    ¬ validLocal dsB (0, (2 : Int)) :=
  c10_project_points_oob dsB 1 0 2 (by decide) (by decide)

end AEIF
